import Mathlib

/-!
Shallow embedding of the drift migration tool (drift.go together with the
embedded templates/init.sql).  Pure functions are translated directly.
Effects are made explicit: a migrations directory is a list of
(name, content) pairs, the database ledger is a list of records, and the
execution of opaque SQL text is an oracle parameter.
-/

namespace Drift

/-- MigrationID is a nonnegative 64-bit integer; NewMigrationID enforces the
nonnegativity invariant, and every ID parsed from a filename is a digit
string, so IDs are modelled as Nat. -/
abbrev MigrationID := Nat

/-- Row shape of the schema_migrations ledger table: (id, slug, run_at).
The run_at column defaults to the current timestamp, which the model fixes
to 0 since no claim depends on its value. -/
structure MigrationRecord where
  id : MigrationID
  slug : String
  runAt : Nat
deriving DecidableEq

/-- Parsed migration file, mirroring migrationFile in drift.go: the path is
omitted (it is dir/name), idRaw keeps the raw digit string separately from
the parsed ID for width comparisons. -/
structure MigrationFile where
  name : String
  content : String
  id : MigrationID
  slug : String
  idRaw : String
deriving DecidableEq

/-- Character for a single decimal digit value. -/
def digitChar (d : Nat) : Char := Char.ofNat (48 + d)

/-- Fuel-indexed decimal printer; decRepr supplies enough fuel.  The fuel
keeps the recursion structural so that the kernel can evaluate it. -/
def decReprAux : Nat → Nat → List Char
  | _, 0 => []
  | n, fuel + 1 =>
    if n < 10 then [digitChar n]
    else decReprAux (n / 10) fuel ++ [digitChar (n % 10)]

/-- Decimal representation of a Nat, modelling the Go d format verb. -/
def decRepr (n : Nat) : List Char := decReprAux n (n + 1)

/-- Model of MigrationID.Width in drift.go: the length of the decimal
representation of the ID. -/
def widthOfID (m : MigrationID) : Nat := (decRepr m).length

/-- Numeric value of a big-endian string of decimal digit characters,
modelling strconv.ParseInt on a digit-only string. -/
def natOfDigitsChars (cs : List Char) : Nat :=
  cs.foldl (fun a c => 10 * a + (c.toNat - 48)) 0

/-- Model of the Go 0*d format verb: pad with zeros on the left up to the
requested width, never truncating. -/
def zeroPad (w n : Nat) : List Char :=
  List.replicate (w - (decRepr n).length) '0' ++ decRepr n

/-- Model of filename in drift.go: Sprintf of 0*d, a dash, the slug and the
.sql suffix. -/
def filename (w : Nat) (id : MigrationID) (slug : String) : String :=
  ⟨zeroPad w id ++ '-' :: (slug.data ++ ['.', 's', 'q', 'l'])⟩

/-- Literal characters of the mandatory .sql suffix, reversed. -/
def sqlSuffixRev : List Char := ['l', 'q', 's', '.']

/-- Model of matching a filename against reFilename, the anchored pattern of
one-or-more digits, a dash, any characters, and a literal .sql suffix.
The digit group must be followed by the dash, so it is exactly the maximal
leading digit run; the anchors force the whole name to be consumed, so the
slug group is everything between the first dash after the digits and the
final four suffix characters.  In RE2 the dot metacharacter does not match
a newline, hence a name whose slug part contains a newline does not match
at all.  Returns the raw digit characters and the slug characters. -/
def parseChars (cs : List Char) : Option (List Char × List Char) :=
  let digits := cs.takeWhile Char.isDigit
  if digits.isEmpty then none
  else
    match cs.dropWhile Char.isDigit with
    | '-' :: rest =>
      if rest.reverse.take 4 = sqlSuffixRev then
        let slug := (rest.reverse.drop 4).reverse
        if slug.contains '\n' then none else some (digits, slug)
      else none
    | _ => none

/-- Errors of the library: the two sentinel errors of drift.go, with the
context the code attaches.  duplicateID carries the two colliding file
names (available); duplicateNewID carries the chosen ID and the name of
the existing file (NewFile). -/
inductive DriftError where
  | duplicateID (firstName secondName : String)
  | duplicateNewID (id : MigrationID) (name : String)
deriving DecidableEq

/-- Construction of the migrationFile record from one parsed directory
entry, as in the loop body of available. -/
def mkFile (name content : String) (p : List Char × List Char) : MigrationFile :=
  ⟨name, content, natOfDigitsChars p.1, ⟨p.2⟩, ⟨p.1⟩⟩

/-- Parsing pass of available: names that do not match the pattern are
skipped (logged at debug level, not an error). -/
def availableFiles (entries : List (String × String)) : List MigrationFile :=
  entries.filterMap (fun e => (parseChars e.1.data).map (mkFile e.1 e.2))

/-- Duplicate detection loop of available.  The Go code stores the first
file seen for each ID in a map and stops at the first file whose ID is
already present; the accumulator models that map, keeping insertion
order. -/
def findDuplicate : List MigrationFile → List MigrationFile → Option (MigrationFile × MigrationFile)
  | _, [] => none
  | seen, m :: ms =>
    match seen.find? (fun o => o.id == m.id) with
    | some o => some (o, m)
    | none => findDuplicate (seen ++ [m]) ms

/-- Model of available in drift.go: parse the directory listing, then fail
with ErrDuplicateID if two files parsed to the same ID. -/
def available (entries : List (String × String)) : Except DriftError (List MigrationFile) :=
  let ms := availableFiles entries
  match findDuplicate [] ms with
  | some om => .error (.duplicateID om.1.name om.2.name)
  | none => .ok ms

/-- The no-transaction directive literal. -/
def noTxStr : String := "--drift:no-transaction"

/-- Characters of the no-transaction directive literal. -/
def noTx : List Char := noTxStr.data

/-- Scan for the directive literal immediately after any newline. -/
def skipTxAux : List Char → Bool
  | [] => false
  | c :: cs => (c == '\n' && noTx.isPrefixOf cs) || skipTxAux cs

/-- Model of skipTx in drift.go: reNoTxComment is the multiline-anchored
literal, so MatchString succeeds exactly when the literal occurs at the
start of the text or immediately after a newline.  No leading whitespace
is allowed before the literal, and the line may continue with further
characters after it. -/
def skipTx (content : String) : Bool :=
  noTx.isPrefixOf content.data || skipTxAux content.data

/-- Splits a character list into its newline-separated lines. -/
def splitLines (cs : List Char) : List (List Char) :=
  cs.foldr
    (fun c acc =>
      if c == '\n' then [] :: acc
      else
        match acc with
        | [] => [[c]]
        | l :: ls => (c :: l) :: ls)
    [[]]

/-- Directive rule as the specification words it, for comparison against the
code: some line is exactly the literal, optionally preceded by
whitespace. -/
def skipTxSpec (content : String) : Bool :=
  (splitLines content.data).any (fun l => l.dropWhile Char.isWhitespace == noTx)

/-- Separator class of reSeparator in drift.go: dash, Perl whitespace (tab,
newline, form feed, carriage return, space), dot, underscore, slash. -/
def isSep (c : Char) : Bool :=
  c == '-' || c == '\t' || c == '\n' || c == '\x0c' || c == '\r' || c == ' ' ||
    c == '.' || c == '_' || c == '/'

/-- Replacement of every maximal run of separator characters by a single
underscore: the flag records whether the previous character was part of a
separator run already replaced. -/
def collapseAux : Bool → List Char → List Char
  | _, [] => []
  | prevSep, c :: cs =>
    if isSep c then
      if prevSep then collapseAux true cs else '_' :: collapseAux true cs
    else c :: collapseAux false cs

/-- Model of slugify in drift.go: ReplaceAllString of the plus-quantified
separator class replaces each leftmost-longest, hence maximal, separator
run with one underscore. -/
def slugify (s : String) : String := ⟨collapseAux false s.data⟩

/-- Failure of the ledger query, either a database error with its Postgres
error code or any other error. -/
inductive QueryError where
  | pg (code : String)
  | other (message : String)
deriving DecidableEq

/-- Postgres error code for the undefined_table condition. -/
def undefinedTableCode : String := "42P01"

/-- Model of applied in drift.go, as a classifier of the raw query outcome:
a database error with the undefined_table code yields the empty record set
with no error, any other failure propagates, and a successful query yields
its rows. -/
def appliedResult (raw : Except QueryError (List MigrationRecord)) :
    Except QueryError (List MigrationRecord) :=
  match raw with
  | .error (.pg code) => if code = undefinedTableCode then .ok [] else .error (.pg code)
  | .error e => .error e
  | .ok ms => .ok ms

/-- Committed database state: the rows of schema_migrations. -/
structure DB where
  ledger : List MigrationRecord
deriving DecidableEq

/-- Oracle for executing opaque SQL text against a ledger state: returns the
resulting ledger rows and an optional error.  Outside a transaction the
returned state persists even on error (partial effects); inside a
transaction the caller discards it on error. -/
abbrev ExecOracle := String → List MigrationRecord → List MigrationRecord × Option String

/-- Error text of a failed claim, standing for the unique-violation error
the database raises on a duplicate primary key. -/
def claimErrMsg : String := "duplicate key value violates unique constraint"

/-- Model of claim in drift.go calling _drift_claim_migration from
templates/init.sql: a plain insert of (id, slug) into schema_migrations,
whose integer primary key makes it fail exactly when the ID is already
recorded. -/
def claimResult (ledger : List MigrationRecord) (id : MigrationID) (slug : String) :
    Except String (List MigrationRecord) :=
  if (ledger.map (fun r => r.id)).contains id then .error claimErrMsg
  else .ok (ledger ++ [⟨id, slug, 0⟩])

/-- Model of apply in drift.go.  With the directive, the raw content runs
directly on the connection: no transaction, no claim, and its effects
persist even on error.  Otherwise a transaction is opened (a BeginTx
failure returns that error with no state change and is not modelled), the
claim runs first, then the content, and the transaction commits only if
both succeeded; on any failure there is no commit, so the committed state
is unchanged. -/
def applyFile (exec : ExecOracle) (db : DB) (f : MigrationFile) : DB × Option String :=
  if skipTx f.content then
    let r := exec f.content db.ledger
    (⟨r.1⟩, r.2)
  else
    match claimResult db.ledger f.id f.slug with
    | .error e => (db, some e)
    | .ok txLedger =>
      match exec f.content txLedger with
      | (_, some e) => (db, some e)
      | (l, none) => (⟨l⟩, none)

/-- Ceiling test of the Migrate loop: skip when upto is set and the ID
exceeds it. -/
def uptoSkip (upto : Option MigrationID) (f : MigrationFile) : Bool :=
  match upto with
  | some u => decide (u < f.id)
  | none => false

/-- Loop of Migrate over the pending files: files above the ceiling are
skipped with a debug log, a failing apply stops the loop returning its
error, and a successful apply threads the new committed state. -/
def migrateLoop (exec : ExecOracle) (upto : Option MigrationID) :
    DB → List MigrationFile → DB × Option String
  | db, [] => (db, none)
  | db, f :: fs =>
    if uptoSkip upto f then migrateLoop exec upto db fs
    else
      match applyFile exec db f with
      | (db2, some e) => (db2, some e)
      | (db2, none) => migrateLoop exec upto db2 fs

/-- Model of diff in drift.go: drop the files whose ID appears in the
applied records, then sort ascending by ID.  sort.Slice is an unstable
sort with a strict comparator; insertionSort on the reflexive order is
used here, and the two agree whenever the IDs are unique, which they
always are since diff runs on the output of available. -/
def diff (applied : List MigrationRecord) (files : List MigrationFile) : List MigrationFile :=
  let skip := applied.map (fun r => r.id)
  let needed := files.filter (fun f => !(skip.contains f.id))
  needed.insertionSort (fun a b => a.id ≤ b.id)

/-- Failure cases of Migrate, keeping which stage failed as the Go code does
by wrapping with distinct context strings. -/
inductive MigrateError where
  | appliedFailed (e : QueryError)
  | availableFailed (e : DriftError)
  | applyFailed (e : String)
deriving DecidableEq

/-- Model of Migrate in drift.go: read the ledger, discover the files, diff,
then apply the pending files in order.  The raw ledger-query outcome is a
parameter, as is the execution oracle. -/
def Migrate (exec : ExecOracle) (raw : Except QueryError (List MigrationRecord))
    (entries : List (String × String)) (upto : Option MigrationID) (db : DB) :
    DB × Option MigrateError :=
  match appliedResult raw with
  | .error e => (db, some (.appliedFailed e))
  | .ok records =>
    match available entries with
    | .error e => (db, some (.availableFailed e))
    | .ok files =>
      match migrateLoop exec upto db (diff records files) with
      | (db2, some e) => (db2, some (.applyFailed e))
      | (db2, none) => (db2, none)

/-- Model of idWidth in drift.go: the running maximum, starting from zero,
of the decimal widths of the file IDs. -/
def idWidth (files : List MigrationFile) : Nat :=
  files.foldl (fun w f => if widthOfID f.id > w then widthOfID f.id else w) 0

/-- Width rule as the specification words it, for comparison against the
code: the maximum decimal digit length with a minimum width of one. -/
def specIdWidth (files : List MigrationFile) : Nat :=
  max 1 (idWidth files)

/-- Renames proposed by Renumber: every file whose raw digit string length
differs from the computed width is renamed to the freshly built name. -/
def proposedRenames (files : List MigrationFile) : List (String × String) :=
  files.filterMap (fun f =>
    if f.idRaw.length ≠ idWidth files then some (f.name, filename (idWidth files) f.id f.slug)
    else none)

/-- Application of a rename table to one directory entry name. -/
def applyRename (renames : List (String × String)) (name : String) : String :=
  match renames.find? (fun r => r.1 == name) with
  | some r => r.2
  | none => name

/-- Model of Renumber in drift.go, returning the proposed renames and the
resulting directory.  With no proposal it reports nothing to do and
performs zero filesystem operations; without write it only prints the
plan.  The sequential os.Rename calls are modelled as one simultaneous
update: the source names are pairwise distinct names of a directory, and
no target collides with any other source or untouched name, because a
target digit prefix has exactly the computed width while every renamed
source has a different prefix length and every untouched parsed name has
a different ID at that same width. -/
def Renumber (entries : List (String × String)) (write : Bool) :
    Except DriftError (List (String × String) × List (String × String)) :=
  match available entries with
  | .error e => .error e
  | .ok files =>
    let renames := proposedRenames files
    if renames = [] then .ok ([], entries)
    else if write then .ok (renames, entries.map (fun e => (applyRename renames e.1, e.2)))
    else .ok (renames, entries)

/-- Model of the open call used by NewFile, with the write, create and
truncate flags: it succeeds whether or not the path exists, truncating
and replacing an existing file. -/
def writeTrunc (entries : List (String × String)) (path content : String) :
    List (String × String) :=
  if entries.any (fun e => e.1 == path) then
    entries.map (fun e => if e.1 == path then (path, content) else e)
  else entries ++ [(path, content)]

/-- Model of safeWriteFile in drift.go, an exclusive create: it fails if the
path already exists. -/
def safeWriteFile (entries : List (String × String)) (path content : String) :
    Option (List (String × String)) :=
  if entries.any (fun e => e.1 == path) then none
  else some (entries ++ [(path, content)])

/-- Model of NewFile in drift.go for a chosen ID: re-scan the directory,
fail with ErrDuplicateID if the ID already exists, then slugify, build the
name at the width of the existing set, and write the rendered template
through a create-and-truncate open.  Template rendering is an opaque
parameter; the wall-clock default for the sentinel unset ID is outside
the model.  Returns the resulting directory and the path or error. -/
def NewFile (entries : List (String × String)) (id : MigrationID) (slug : String)
    (render : MigrationID → String → String) :
    List (String × String) × Except DriftError String :=
  match available entries with
  | .error e => (entries, .error e)
  | .ok files =>
    match files.find? (fun f => f.id == id) with
    | some f => (entries, .error (.duplicateNewID id f.name))
    | none =>
      let slug2 := slugify slug
      let name := filename (idWidth files) id slug2
      (writeTrunc entries name (render id slug2), .ok name)

/-- Content consisting of the directive literal preceded by one space. -/
def indentedDirective : String := " --drift:no-transaction"

/-- Slug containing a newline character, for the roundtrip counterexample. -/
def newlineSlug : String := "a\nb"

/-- Oracle whose executions always succeed and leave the ledger unchanged. -/
def execNoop : ExecOracle := fun _ ledger => (ledger, none)

/-- Error message used by the failing oracle. -/
def boomMsg : String := "boom"

/-- Oracle whose executions always fail, leaving the ledger unchanged. -/
def execBoom : ExecOracle := fun _ ledger => (ledger, some boomMsg)

/-- Database whose ledger is empty. -/
def dbEmpty : DB := ⟨[]⟩

/-- Bootstrap migration file carrying the directive as its content. -/
def fileNoTx : MigrationFile := ⟨ "0-init.sql", noTxStr, 0, "init", "0"⟩

/-- Ordinary migration file without the directive. -/
def fileUsers : MigrationFile := ⟨ "5-add_users.sql", "create table users;", 5, "add_users", "5"⟩

/-- Directory listing in which two names parse to the same numeric ID. -/
def dupEntries : List (String × String) :=
  [( "1-a.sql", "select 1;"), ( "01-b.sql", "select 2;")]

/-- Name of the sample file used in the overwrite counterexample. -/
def pathA : String := "1-a.sql"

/-- Stale content of the sample file. -/
def oldContent : String := "old"

/-- Fresh content written over the sample file. -/
def newContent : String := "new"

/-- Directory already holding a file at the sample path. -/
def overwriteEntries : List (String × String) := [(pathA, oldContent)]

/-- Raw slug typed on the command line, with a space to normalize. -/
def slugRaw : String := "add users"

/-- Template renderer producing fixed content. -/
def renderStub : MigrationID → String → String := fun _ _ => newContent

/-- Safety contract of NewFile: an ID collision with an existing parsed file
yields the duplicate-ID error; every error leaves the directory untouched;
and a successful creation appends a file at a path no existing entry
occupies, so nothing is ever overwritten. -/
def newFileSafe (entries : List (String × String)) (id : MigrationID) (slug : String)
    (render : MigrationID → String → String) : Prop :=
  (∀ files f, available entries = .ok files → f ∈ files → f.id = id →
    (NewFile entries id slug render).1 = entries ∧
    (∃ g ∈ files, g.id = id ∧
      (NewFile entries id slug render).2 = .error (.duplicateNewID id g.name))) ∧
  (∀ e, (NewFile entries id slug render).2 = .error e →
    (NewFile entries id slug render).1 = entries) ∧
  (∀ path, (NewFile entries id slug render).2 = .ok path →
    (∀ en ∈ entries, en.1 ≠ path) ∧
    (NewFile entries id slug render).1 = entries ++ [(path, render id (slugify slug))])

/-- File record after renaming to the computed width. -/
def renameFileTo (w : Nat) (f : MigrationFile) : MigrationFile :=
  ⟨filename w f.id f.slug, f.content, f.id, f.slug, ⟨zeroPad w f.id⟩⟩

/-- Parsed view of the directory after a writing Renumber run: every file
whose raw digit width differed from the computed width carries its new
name and padded digits. -/
def renumberedFiles (files : List MigrationFile) : List MigrationFile :=
  files.map (fun f =>
    if f.idRaw.length ≠ idWidth files then renameFileTo (idWidth files) f else f)

/-- Outcome of a second Renumber run: the renamed directory parses cleanly,
every raw digit width already equals the computed width, zero renames are
proposed, and the run reports nothing to do performing no filesystem
operation. -/
def renumberIdempotent (entries1 : List (String × String)) : Prop :=
  ∃ files1, available entries1 = .ok files1 ∧
    (∀ f ∈ files1, f.idRaw.length = idWidth files1) ∧
    proposedRenames files1 = [] ∧
    Renumber entries1 true = .ok ([], entries1)

/-- Mixed-width directory for the renumber witness. -/
def renumEntries : List (String × String) :=
  [( "1-a.sql", "select 1;"), ( "20-b.sql", "select 2;")]

/-- Parsed files of the mixed-width directory. -/
def renumFiles : List MigrationFile :=
  [⟨ "1-a.sql", "select 1;", 1, "a", "1"⟩, ⟨ "20-b.sql", "select 2;", 20, "b", "20"⟩]

/-- Renames proposed on the mixed-width directory. -/
def renumRenames : List (String × String) := [( "1-a.sql", "01-a.sql")]

/-- The mixed-width directory after the writing run. -/
def renumEntries1 : List (String × String) :=
  [( "01-a.sql", "select 1;"), ( "20-b.sql", "select 2;")]

/-- Characterization of the pending set computed by Migrate: membership is
exactly absence from the applied records plus respect of the ceiling; the
pending list is strictly ascending by ID; the ceiling skip inside the
loop is the same as filtering the list first (so skipped files produce no
error); and with an empty ledger and no ceiling the pending list is a
permutation of all available files. -/
def pendingCharacterization (records : List MigrationRecord) (files : List MigrationFile)
    (upto : Option MigrationID) : Prop :=
  (∀ f, f ∈ (diff records files).filter (fun g => !(uptoSkip upto g)) ↔
    (f ∈ files ∧ f.id ∉ records.map (fun r => r.id) ∧ (∀ u, upto = some u → f.id ≤ u))) ∧
  ((diff records files).filter (fun g => !(uptoSkip upto g))).Pairwise
    (fun a b => a.id < b.id) ∧
  (∀ (exec : ExecOracle) (db : DB) (l : List MigrationFile),
    migrateLoop exec upto db l =
      migrateLoop exec none db (l.filter (fun g => !(uptoSkip upto g)))) ∧
  (records = [] → upto = none →
    ((diff records files).filter (fun g => !(uptoSkip upto g))).Perm files)

/-- Transactional contract of apply on a file without the directive: the
claim is invoked first on (id, slug); a failing claim or a failing
content execution yields that error with the committed state unchanged
and stops the Migrate loop with that same error before any later file;
the claim failure happens exactly when the ID is already recorded; and on
success the state produced by executing the content after the claim row
is committed and the loop continues on it. -/
def applyTransactional (exec : ExecOracle) (db : DB) (f : MigrationFile)
    (rest : List MigrationFile) (upto : Option MigrationID) : Prop :=
  ((db.ledger.map (fun r => r.id)).contains f.id = true →
    applyFile exec db f = (db, some claimErrMsg) ∧
    migrateLoop exec upto db (f :: rest) = (db, some claimErrMsg)) ∧
  (∀ e ledger2, (db.ledger.map (fun r => r.id)).contains f.id = false →
    exec f.content (db.ledger ++ [⟨f.id, f.slug, 0⟩]) = (ledger2, some e) →
    applyFile exec db f = (db, some e) ∧
    migrateLoop exec upto db (f :: rest) = (db, some e) ∧
    f.id ∉ (applyFile exec db f).1.ledger.map (fun r => r.id)) ∧
  (∀ ledger2, (db.ledger.map (fun r => r.id)).contains f.id = false →
    exec f.content (db.ledger ++ [⟨f.id, f.slug, 0⟩]) = (ledger2, none) →
    applyFile exec db f = (⟨ledger2⟩, none) ∧
    migrateLoop exec upto db (f :: rest) = migrateLoop exec upto ⟨ledger2⟩ rest)

/-! Supporting lemmas about the decimal printer and the filename parser. -/

theorem digitChar_facts :
    ∀ d, d < 10 → (digitChar d).toNat = 48 + d ∧ (digitChar d).isDigit = true ∧
      digitChar d ≠ '\n' ∧ digitChar d ≠ '-' := by
  decide

theorem decReprAux_spec :
    ∀ fuel n, n < fuel →
      natOfDigitsChars (decReprAux n fuel) = n ∧
      (∀ c ∈ decReprAux n fuel, c.isDigit = true) ∧
      decReprAux n fuel ≠ [] := by
  intro fuel
  induction fuel with
  | zero => intro n h; omega
  | succ fuel ih =>
    intro n h
    by_cases h10 : n < 10
    · obtain ⟨hv, hd, _, _⟩ := digitChar_facts n h10
      refine ⟨?_, ?_, ?_⟩
      · simp [decReprAux, h10, natOfDigitsChars, hv]
      · intro c hc
        simp [decReprAux, h10] at hc
        subst hc; exact hd
      · simp [decReprAux, h10]
    · have hpos : 0 < n := by omega
      have hdiv : n / 10 < n := Nat.div_lt_self hpos (by omega)
      have hfuel : n / 10 < fuel := by omega
      obtain ⟨ihv, ihd, ihne⟩ := ih (n / 10) hfuel
      have hmod : n % 10 < 10 := Nat.mod_lt _ (by omega)
      obtain ⟨hv, hd, _, _⟩ := digitChar_facts (n % 10) hmod
      refine ⟨?_, ?_, ?_⟩
      · have : natOfDigitsChars (decReprAux (n / 10) fuel ++ [digitChar (n % 10)]) =
            10 * natOfDigitsChars (decReprAux (n / 10) fuel) + ((digitChar (n % 10)).toNat - 48) := by
          simp [natOfDigitsChars, List.foldl_append]
        simp only [decReprAux, if_neg h10]
        rw [this, ihv, hv]
        omega
      · intro c hc
        simp only [decReprAux, if_neg h10, List.mem_append, List.mem_singleton] at hc
        rcases hc with hc | hc
        · exact ihd c hc
        · subst hc; exact hd
      · simp [decReprAux, h10]

theorem natOfDigitsChars_decRepr (n : Nat) : natOfDigitsChars (decRepr n) = n :=
  (decReprAux_spec (n + 1) n (Nat.lt_succ_self n)).1

theorem decRepr_digits (n : Nat) : ∀ c ∈ decRepr n, c.isDigit = true :=
  (decReprAux_spec (n + 1) n (Nat.lt_succ_self n)).2.1

theorem decRepr_ne_nil (n : Nat) : decRepr n ≠ [] :=
  (decReprAux_spec (n + 1) n (Nat.lt_succ_self n)).2.2

theorem zeroPad_digits (w n : Nat) : ∀ c ∈ zeroPad w n, c.isDigit = true := by
  intro c hc
  simp only [zeroPad, List.mem_append, List.mem_replicate] at hc
  rcases hc with ⟨_, hc⟩ | hc
  · subst hc; decide
  · exact decRepr_digits n c hc

theorem zeroPad_ne_nil (w n : Nat) : zeroPad w n ≠ [] := by
  simp [zeroPad, decRepr_ne_nil n]

theorem zeroPad_length (w n : Nat) : (zeroPad w n).length = max w (decRepr n).length := by
  simp only [zeroPad, List.length_append, List.length_replicate]
  omega

theorem natOfDigitsChars_zeroPad (w n : Nat) : natOfDigitsChars (zeroPad w n) = n := by
  have hacc : (fun (a : Nat) (c : Char) => 10 * a + (c.toNat - 48)) 0 '0' = 0 := by decide
  have hk : ∀ k (ds : List Char),
      natOfDigitsChars (List.replicate k '0' ++ ds) = natOfDigitsChars ds := by
    intro k
    induction k with
    | zero => intro ds; rfl
    | succ k ih =>
      intro ds
      simp only [natOfDigitsChars, List.replicate_succ, List.cons_append, List.foldl_cons, hacc]
      exact ih ds
  rw [zeroPad, hk, natOfDigitsChars_decRepr]

theorem takeWhile_append_eq (p : Char → Bool) (xs : List Char) (y : Char) (ys : List Char)
    (hx : ∀ x ∈ xs, p x = true) (hy : p y = false) :
    (xs ++ y :: ys).takeWhile p = xs := by
  induction xs with
  | nil => simp [List.takeWhile_cons, hy]
  | cons a xs ih =>
    have ha := hx a (by simp)
    simp only [List.cons_append, List.takeWhile_cons, ha, if_true]
    rw [ih (fun x hx2 => hx x (by simp [hx2]))]

theorem dropWhile_append_eq (p : Char → Bool) (xs : List Char) (y : Char) (ys : List Char)
    (hx : ∀ x ∈ xs, p x = true) (hy : p y = false) :
    (xs ++ y :: ys).dropWhile p = y :: ys := by
  induction xs with
  | nil => simp [List.dropWhile_cons, hy]
  | cons a xs ih =>
    have ha := hx a (by simp)
    simp only [List.cons_append, List.dropWhile_cons, ha, if_true]
    exact ih (fun x hx2 => hx x (by simp [hx2]))

theorem parseChars_filename (w : Nat) (id : MigrationID) (slug : String)
    (hnl : '\n' ∉ slug.data) :
    parseChars (filename w id slug).data = some (zeroPad w id, slug.data) := by
  have hdata : (filename w id slug).data = zeroPad w id ++ '-' :: (slug.data ++ ['.', 's', 'q', 'l']) := rfl
  have hdash : Char.isDigit '-' = false := by decide
  have htake : ((filename w id slug).data).takeWhile Char.isDigit = zeroPad w id := by
    rw [hdata]; exact takeWhile_append_eq _ _ _ _ (zeroPad_digits w id) hdash
  have hdrop : ((filename w id slug).data).dropWhile Char.isDigit =
      '-' :: (slug.data ++ ['.', 's', 'q', 'l']) := by
    rw [hdata]; exact dropWhile_append_eq _ _ _ _ (zeroPad_digits w id) hdash
  have hne : (zeroPad w id).isEmpty = false := by
    cases hz : zeroPad w id with
    | nil => exact absurd hz (zeroPad_ne_nil w id)
    | cons a l => rfl
  have hrev : (slug.data ++ ['.', 's', 'q', 'l']).reverse = sqlSuffixRev ++ slug.data.reverse := by
    simp [sqlSuffixRev]
  have hcontains : slug.data.contains '\n' = false := by
    simpa using hnl
  rw [parseChars]
  simp only [htake, hdrop, hne, Bool.false_eq_true, if_false, hrev]
  have htk : (sqlSuffixRev ++ slug.data.reverse).take 4 = sqlSuffixRev := by
    have : sqlSuffixRev.length = 4 := rfl
    rw [← this, List.take_left]
  have hdp : (sqlSuffixRev ++ slug.data.reverse).drop 4 = slug.data.reverse := by
    have : sqlSuffixRev.length = 4 := rfl
    rw [← this, List.drop_left]
  simp [htk, hdp, hcontains, hnl]

theorem collapseAux_cons (b : Bool) (c : Char) (cs : List Char) :
    collapseAux b (c :: cs) =
      if isSep c then
        if b then collapseAux true cs else '_' :: collapseAux true cs
      else c :: collapseAux false cs := rfl

theorem collapseAux_idem :
    ∀ cs : List Char,
      collapseAux false (collapseAux true cs) = collapseAux true cs ∧
      collapseAux true (collapseAux true cs) = collapseAux true cs ∧
      collapseAux false (collapseAux false cs) = collapseAux false cs := by
  intro cs
  induction cs with
  | nil => exact ⟨rfl, rfl, rfl⟩
  | cons c cs ih =>
    obtain ⟨ih1, ih2, ih3⟩ := ih
    by_cases hc : isSep c = true
    · have hus : isSep '_' = true := by decide
      refine ⟨?_, ?_, ?_⟩
      · rw [collapseAux_cons, if_pos hc, if_pos rfl, ih1]
      · rw [collapseAux_cons, if_pos hc, if_pos rfl, ih2]
      · rw [collapseAux_cons, if_pos hc, if_neg (by simp), collapseAux_cons,
          if_pos hus, if_neg (by simp), ih2]
    · have hc2 : isSep c = false := by simpa using hc
      refine ⟨?_, ?_, ?_⟩
      · rw [collapseAux_cons, if_neg (by simp [hc2]), collapseAux_cons,
          if_neg (by simp [hc2]), ih3]
      · rw [collapseAux_cons, if_neg (by simp [hc2]), collapseAux_cons,
          if_neg (by simp [hc2]), ih3]
      · rw [collapseAux_cons, if_neg (by simp [hc2]), collapseAux_cons,
          if_neg (by simp [hc2]), ih3]

/-- C10: slug normalization is idempotent: for every input string,
slugify applied twice equals slugify applied once, so an
already-normalized slug is left unchanged by a second normalization. -/
theorem slugify_idempotent (s : String) : slugify (slugify s) = slugify s :=
  congrArg String.mk (collapseAux_idem s.data).2.2

/-- C5: when the ledger query fails with the undefined-table condition, the
applied computation returns the empty record set and no error; any other
query failure is returned to the caller, and a successful query returns
its rows. -/
theorem applied_undefined_table_recovery :
    appliedResult (.error (.pg undefinedTableCode)) = .ok [] ∧
    (∀ code, code ≠ undefinedTableCode →
      appliedResult (.error (.pg code)) = .error (.pg code)) ∧
    (∀ msg, appliedResult (.error (.other msg)) = .error (.other msg)) ∧
    (∀ ms, appliedResult (.ok ms) = .ok ms) := by
  refine ⟨by simp [appliedResult], ?_, fun msg => rfl, fun ms => rfl⟩
  intro code hc
  simp [appliedResult, hc]

theorem applied_undefined_table_recovery_witness :
    ( "08006" ≠ undefinedTableCode) ∧
    appliedResult (.error (.pg "08006")) = .error (.pg "08006") :=
  ⟨by decide, applied_undefined_table_recovery.2.1 "08006" (by decide)⟩

theorem skipTxAux_iff (cs : List Char) :
    skipTxAux cs = true ↔ ∃ pre post, cs = pre ++ '\n' :: (noTx ++ post) := by
  induction cs with
  | nil =>
    simp only [skipTxAux, Bool.false_eq_true, false_iff]
    rintro ⟨pre, post, h⟩
    cases pre <;> simp at h
  | cons c cs ih =>
    constructor
    · intro h
      simp only [skipTxAux, Bool.or_eq_true, Bool.and_eq_true, beq_iff_eq] at h
      rcases h with ⟨hc, hp⟩ | h
      · subst hc
        obtain ⟨t, ht⟩ := List.isPrefixOf_iff_prefix.mp hp
        exact ⟨[], t, by simp [← ht]⟩
      · obtain ⟨pre, post, hpp⟩ := ih.mp h
        exact ⟨c :: pre, post, by simp [hpp]⟩
    · rintro ⟨pre, post, hpp⟩
      cases pre with
      | nil =>
        simp only [List.nil_append, List.cons.injEq] at hpp
        obtain ⟨hc, hcs⟩ := hpp
        subst hc
        have hp : noTx.isPrefixOf cs = true :=
          List.isPrefixOf_iff_prefix.mpr ⟨post, hcs.symm⟩
        simp [skipTxAux, hp]
      | cons p pre =>
        simp only [List.cons_append, List.cons.injEq] at hpp
        obtain ⟨hpc, hrest⟩ := hpp
        have hres := ih.mpr ⟨pre, post, hrest⟩
        simp [skipTxAux, hres]

/-- C4 counterexample: a line consisting of the directive literal preceded
by whitespace satisfies the stated rule, but the code does not disable
transaction wrapping for it: the multiline anchor admits no leading
whitespace. -/
theorem skipTx_whitespace_counterexample :
    skipTxSpec indentedDirective = true ∧ skipTx indentedDirective = false := by
  decide

/-- C4 amended: transaction wrapping and the auto-claim are disabled exactly
when some line of the content begins with the literal directive, with no
preceding whitespace allowed and with further characters permitted after
the literal on the same line; in that case the raw content is executed
directly against the connection with no transaction and no claim call. -/
theorem skipTx_line_start_characterization (content : String) :
    (skipTx content = true ↔
      ∃ pre post, content.data = pre ++ noTx ++ post ∧
        (pre = [] ∨ ∃ pre2, pre = pre2 ++ ['\n'])) ∧
    (∀ (exec : ExecOracle) (db : DB) (f : MigrationFile), skipTx f.content = true →
      applyFile exec db f =
        (⟨(exec f.content db.ledger).1⟩, (exec f.content db.ledger).2)) := by
  constructor
  · constructor
    · intro h
      simp only [skipTx, Bool.or_eq_true] at h
      rcases h with h | h
      · obtain ⟨t, ht⟩ := List.isPrefixOf_iff_prefix.mp h
        exact ⟨[], t, by simp [← ht], Or.inl rfl⟩
      · obtain ⟨pre, post, hpp⟩ := (skipTxAux_iff content.data).mp h
        refine ⟨pre ++ ['\n'], post, ?_, Or.inr ⟨pre, rfl⟩⟩
        simp [hpp]
    · rintro ⟨pre, post, hpp, hpre | ⟨pre2, hpre⟩⟩
      · subst hpre
        have hp : noTx.isPrefixOf content.data = true := by
          refine List.isPrefixOf_iff_prefix.mpr ⟨post, ?_⟩
          simp at hpp
          exact hpp.symm
        simp [skipTx, hp]
      · subst hpre
        have haux : skipTxAux content.data = true := by
          refine (skipTxAux_iff content.data).mpr ⟨pre2, post, ?_⟩
          simp [hpp]
        simp [skipTx, haux]
  · intro exec db f h
    simp [applyFile, h]

theorem skipTx_line_start_characterization_witness :
    skipTx noTxStr = true ∧
    applyFile execNoop dbEmpty fileNoTx = (dbEmpty, none) :=
  ⟨by decide, (skipTx_line_start_characterization noTxStr).2 execNoop dbEmpty fileNoTx (by decide)⟩

theorem idWidth_foldl_spec (step : Nat → MigrationFile → Nat)
    (hstep : step = fun w f => if widthOfID f.id > w then widthOfID f.id else w) :
    ∀ (files : List MigrationFile) (acc : Nat),
      acc ≤ files.foldl step acc ∧
      (∀ f ∈ files, widthOfID f.id ≤ files.foldl step acc) ∧
      (files.foldl step acc = acc ∨ ∃ f ∈ files, files.foldl step acc = widthOfID f.id) := by
  intro files
  induction files with
  | nil => intro acc; exact ⟨Nat.le_refl _, by simp, Or.inl rfl⟩
  | cons f fs ih =>
    intro acc
    have hstepf : ∀ a, step a f = if widthOfID f.id > a then widthOfID f.id else a := by
      intro a; rw [hstep]
    obtain ⟨ih1, ih2, ih3⟩ := ih (step acc f)
    have hacc : acc ≤ step acc f := by
      rw [hstepf]; split <;> omega
    have hf : widthOfID f.id ≤ step acc f := by
      rw [hstepf]; split <;> omega
    refine ⟨?_, ?_, ?_⟩
    · calc acc ≤ step acc f := hacc
        _ ≤ _ := ih1
    · intro g hg
      rcases List.mem_cons.mp hg with hg | hg
      · subst hg
        calc widthOfID g.id ≤ step acc g := hf
          _ ≤ _ := ih1
      · exact ih2 g hg
    · rcases ih3 with h | ⟨g, hg, h⟩
      · rw [List.foldl_cons, h]
        rw [hstepf]
        split
        · exact Or.inr ⟨f, List.mem_cons_self f fs, rfl⟩
        · exact Or.inl rfl
      · exact Or.inr ⟨g, List.mem_cons_of_mem f hg, h⟩

theorem widthOfID_pos (m : MigrationID) : 1 ≤ widthOfID m := by
  have h := decRepr_ne_nil m
  rw [widthOfID]
  cases hr : decRepr m with
  | nil => exact absurd hr h
  | cons a l => simp

/-- C9 counterexample: on the empty set of available files the code computes
width 0, while the stated rule of a maximum with minimum width 1 yields 1. -/
theorem idWidth_empty_counterexample :
    idWidth ([] : List MigrationFile) = 0 ∧ specIdWidth ([] : List MigrationFile) = 1 ∧
    idWidth ([] : List MigrationFile) ≠ specIdWidth ([] : List MigrationFile) := by
  decide

/-- C9 amended: for every nonempty set of available files the computed width
is the maximum decimal digit length of the files' IDs, which is at least 1
and so agrees with the minimum-1 rule; for the empty set the code computes
width 0, not 1, though padding to width 0 produces the same unpadded
digits as padding to width 1; and the filename built from (width, ID,
Slug) is always the ID zero-padded to the width, a dash, the slug, and
the .sql suffix, where the padded digits have the stated length and still
parse to the ID. -/
theorem idWidth_max_and_filename (files : List MigrationFile) :
    (∀ f ∈ files, widthOfID f.id ≤ idWidth files) ∧
    (files ≠ [] →
      (∃ f ∈ files, idWidth files = widthOfID f.id) ∧
      1 ≤ idWidth files ∧ idWidth files = specIdWidth files) ∧
    idWidth ([] : List MigrationFile) = 0 ∧
    (∀ w id slug, (filename w id slug).data =
      zeroPad w id ++ '-' :: (slug.data ++ ['.', 's', 'q', 'l'])) ∧
    (∀ w id, (zeroPad w id).length = max w (widthOfID id) ∧
      natOfDigitsChars (zeroPad w id) = id) ∧
    (∀ id : MigrationID, zeroPad 0 id = zeroPad 1 id) := by
  have hspec := idWidth_foldl_spec _ rfl files 0
  refine ⟨hspec.2.1, ?_, rfl, fun w id slug => rfl,
    fun w id => ⟨zeroPad_length w id, natOfDigitsChars_zeroPad w id⟩, ?_⟩
  · intro hne
    have hmem : ∃ f ∈ files, idWidth files = widthOfID f.id := by
      rcases hspec.2.2 with h | h
      · cases files with
        | nil => exact absurd rfl hne
        | cons f fs =>
          refine ⟨f, List.mem_cons_self f fs, ?_⟩
          have hle := hspec.2.1 f (List.mem_cons_self f fs)
          have hp := widthOfID_pos f.id
          rw [idWidth] at *
          omega
      · exact h
    obtain ⟨f, hf, hidw⟩ := hmem
    have h1 : 1 ≤ idWidth files := hidw ▸ widthOfID_pos f.id
    refine ⟨⟨f, hf, hidw⟩, h1, ?_⟩
    rw [specIdWidth]
    omega
  · intro id
    have h := widthOfID_pos id
    rw [widthOfID] at h
    rw [zeroPad, zeroPad]
    have h0 : 0 - (decRepr id).length = 0 := by omega
    have h1 : 1 - (decRepr id).length = 0 := by omega
    rw [h0, h1]

theorem idWidth_max_and_filename_witness :
    ([fileUsers] ≠ ([] : List MigrationFile)) ∧
    ((∃ f ∈ [fileUsers], idWidth [fileUsers] = widthOfID f.id) ∧
      1 ≤ idWidth [fileUsers] ∧ idWidth [fileUsers] = specIdWidth [fileUsers]) :=
  ⟨by decide, (idWidth_max_and_filename [fileUsers]).2.1 (by decide)⟩

/-- C7 counterexample: with a slug containing a newline, re-parsing the
built filename fails entirely, because the dot of the pattern does not
match a newline, so the (id, slug) pair is not recovered even though the
width covers the digit length of the ID. -/
theorem filename_roundtrip_newline_counterexample :
    widthOfID 1 ≤ 1 ∧ parseChars (filename 1 1 newlineSlug).data = none ∧
    (parseChars (filename 1 1 newlineSlug).data).map
      (fun p => (natOfDigitsChars p.1, String.mk p.2)) ≠ some (1, newlineSlug) := by
  decide

/-- C7 amended: for every ID, every width at least the decimal digit length
of the ID, and every slug free of newline characters, building the name
with filename and re-parsing it with the migration filename pattern
recovers exactly the same (id, slug) pair. -/
theorem filename_parse_roundtrip (w : Nat) (id : MigrationID) (slug : String)
    (_hw : widthOfID id ≤ w) (hnl : '\n' ∉ slug.data) :
    (parseChars (filename w id slug).data).map
      (fun p => (natOfDigitsChars p.1, String.mk p.2)) = some (id, slug) := by
  rw [parseChars_filename w id slug hnl]
  simp [natOfDigitsChars_zeroPad]

theorem filename_parse_roundtrip_witness :
    (widthOfID 42 ≤ 5 ∧ '\n' ∉ ( "create_users" : String).data) ∧
    (parseChars (filename 5 42 "create_users").data).map
      (fun p => (natOfDigitsChars p.1, String.mk p.2)) = some (42, "create_users") :=
  ⟨⟨by decide, by decide⟩, filename_parse_roundtrip 5 42 "create_users" (by decide) (by decide)⟩

theorem findDuplicate_eq_none_iff :
    ∀ (ms seen : List MigrationFile),
      findDuplicate seen ms = none ↔
        ((∀ m ∈ ms, ∀ o ∈ seen, o.id ≠ m.id) ∧ (ms.map (fun f => f.id)).Nodup) := by
  intro ms
  induction ms with
  | nil => intro seen; simp [findDuplicate]
  | cons m ms ih =>
    intro seen
    cases hfind : seen.find? (fun o => o.id == m.id) with
    | some o =>
      have hstep : findDuplicate seen (m :: ms) = some (o, m) := by
        rw [findDuplicate, hfind]
      rw [hstep]
      constructor
      · intro h; cases h
      · rintro ⟨h1, _⟩
        have ho := List.find?_some hfind
        have hom := List.mem_of_find?_eq_some hfind
        exact absurd (beq_iff_eq.mp ho) (h1 m (List.mem_cons_self m ms) o hom)
    | none =>
      have hstep : findDuplicate seen (m :: ms) = findDuplicate (seen ++ [m]) ms := by
        rw [findDuplicate, hfind]
      rw [hstep, ih (seen ++ [m])]
      have hseen : ∀ o ∈ seen, o.id ≠ m.id := by
        intro o ho
        have h := List.find?_eq_none.mp hfind o ho
        simpa using h
      constructor
      · rintro ⟨h1, h2⟩
        refine ⟨?_, ?_⟩
        · intro x hx o ho
          rcases List.mem_cons.mp hx with hx | hx
          · subst hx; exact hseen o ho
          · exact h1 x hx o (List.mem_append_left _ ho)
        · rw [List.map_cons, List.nodup_cons]
          refine ⟨?_, h2⟩
          intro hmem
          obtain ⟨x, hx, hxid⟩ := List.mem_map.mp hmem
          exact h1 x hx m (List.mem_append_right _ (List.mem_singleton.mpr rfl)) hxid.symm
      · rintro ⟨h1, h2⟩
        rw [List.map_cons, List.nodup_cons] at h2
        refine ⟨?_, h2.2⟩
        intro x hx o ho
        rcases List.mem_append.mp ho with ho | ho
        · exact h1 x (List.mem_cons_of_mem m hx) o ho
        · rw [List.mem_singleton.mp ho]
          intro heq
          exact h2.1 (List.mem_map.mpr ⟨x, hx, heq.symm⟩)

theorem available_ok_spec (entries : List (String × String)) (files : List MigrationFile)
    (h : available entries = .ok files) :
    files = availableFiles entries ∧
      ((availableFiles entries).map (fun f => f.id)).Nodup := by
  rw [available] at h
  cases hfd : findDuplicate [] (availableFiles entries) with
  | some om => rw [hfd] at h; cases h
  | none =>
    rw [hfd] at h
    cases h
    exact ⟨rfl, ((findDuplicate_eq_none_iff (availableFiles entries) []).mp hfd).2⟩

theorem available_error_of_not_nodup (entries : List (String × String))
    (h : ¬ ((availableFiles entries).map (fun f => f.id)).Nodup) :
    ∃ a b, available entries = .error (.duplicateID a b) := by
  cases hfd : findDuplicate [] (availableFiles entries) with
  | some om =>
    refine ⟨om.1.name, om.2.name, ?_⟩
    rw [available, hfd]
  | none =>
    exact absurd ((findDuplicate_eq_none_iff (availableFiles entries) []).mp hfd).2 h

/-- C3: when two files matching the filename pattern parse to the same
numeric ID, discovery fails with the duplicate-ID error; Migrate performs
discovery before applying anything, so for every oracle the database
state is returned unchanged with an error and no migration executes. -/
theorem duplicate_id_stops_migrate (entries : List (String × String))
    (h : ¬ ((availableFiles entries).map (fun f => f.id)).Nodup) :
    (∃ a b, available entries = .error (.duplicateID a b)) ∧
    (∀ (exec : ExecOracle) (raw : Except QueryError (List MigrationRecord))
        (upto : Option MigrationID) (db : DB) (records : List MigrationRecord),
      appliedResult raw = .ok records →
      ∃ a b, Migrate exec raw entries upto db =
        (db, some (.availableFailed (.duplicateID a b)))) ∧
    (∀ (exec : ExecOracle) (raw : Except QueryError (List MigrationRecord))
        (upto : Option MigrationID) (db : DB),
      (Migrate exec raw entries upto db).1 = db ∧
      (Migrate exec raw entries upto db).2 ≠ none) := by
  obtain ⟨a, b, hav⟩ := available_error_of_not_nodup entries h
  refine ⟨⟨a, b, hav⟩, ?_, ?_⟩
  · intro exec raw upto db records hrec
    refine ⟨a, b, ?_⟩
    rw [Migrate, hrec, hav]
  · intro exec raw upto db
    rw [Migrate]
    cases happ : appliedResult raw with
    | error e => exact ⟨rfl, by simp⟩
    | ok records =>
      rw [hav]
      exact ⟨rfl, by simp⟩

theorem duplicate_id_stops_migrate_witness :
    (¬ ((availableFiles dupEntries).map (fun f => f.id)).Nodup) ∧
    (∃ a b, Migrate execNoop (.ok []) dupEntries none dbEmpty =
      (dbEmpty, some (.availableFailed (.duplicateID a b)))) := by
  refine ⟨by decide, ?_⟩
  exact (duplicate_id_stops_migrate dupEntries (by decide)).2.1
    execNoop (.ok []) none dbEmpty [] rfl

theorem migrateLoop_nil (exec : ExecOracle) (upto : Option MigrationID) (db : DB) :
    migrateLoop exec upto db [] = (db, none) := rfl

theorem migrateLoop_cons (exec : ExecOracle) (upto : Option MigrationID) (db : DB)
    (f : MigrationFile) (fs : List MigrationFile) :
    migrateLoop exec upto db (f :: fs) =
      if uptoSkip upto f then migrateLoop exec upto db fs
      else
        match applyFile exec db f with
        | (db2, some e) => (db2, some e)
        | (db2, none) => migrateLoop exec upto db2 fs := rfl

theorem migrateLoop_filter (exec : ExecOracle) (upto : Option MigrationID) :
    ∀ (l : List MigrationFile) (db : DB),
      migrateLoop exec upto db l =
        migrateLoop exec none db (l.filter (fun g => !(uptoSkip upto g))) := by
  intro l
  induction l with
  | nil => intro db; rfl
  | cons f fs ih =>
    intro db
    rw [migrateLoop_cons]
    cases hs : uptoSkip upto f with
    | true =>
      rw [if_pos rfl]
      have hfilter : (f :: fs).filter (fun g => !(uptoSkip upto g)) =
          fs.filter (fun g => !(uptoSkip upto g)) := by
        simp [List.filter_cons, hs]
      rw [hfilter]
      exact ih db
    | false =>
      rw [if_neg (by simp)]
      have hfilter : (f :: fs).filter (fun g => !(uptoSkip upto g)) =
          f :: fs.filter (fun g => !(uptoSkip upto g)) := by
        simp [List.filter_cons, hs]
      rw [hfilter, migrateLoop_cons]
      have hnone : uptoSkip none f = false := rfl
      rw [if_neg (by simp [hnone])]
      cases happ : applyFile exec db f with
      | mk db2 e =>
        cases e with
        | some err => rfl
        | none => exact ih db2

theorem uptoSkip_false_iff (upto : Option MigrationID) (f : MigrationFile) :
    (!(uptoSkip upto f)) = true ↔ (∀ u, upto = some u → f.id ≤ u) := by
  cases upto with
  | none => simp [uptoSkip]
  | some u =>
    simp only [uptoSkip, Bool.not_eq_true']
    rw [decide_eq_false_iff_not]
    constructor
    · intro h v hv
      injection hv with hv
      subst hv
      exact Nat.le_of_not_lt h
    · intro h
      exact Nat.not_lt.mpr (h u rfl)

/-- C2: the pending set computed by Migrate, via diff plus the ceiling
filter, is exactly the available files whose ID is absent from the
applied records and at most the ceiling when one is supplied, in strictly
ascending ID order; skipping for the ceiling is the same as filtering and
produces no error; and with an empty ledger and no ceiling all available
files are pending. -/
theorem pending_diff_characterization (records : List MigrationRecord)
    (files : List MigrationFile) (upto : Option MigrationID)
    (hnd : (files.map (fun f => f.id)).Nodup) :
    pendingCharacterization records files upto := by
  have hperm : (diff records files).Perm
      (files.filter (fun f => !((records.map (fun r => r.id)).contains f.id))) :=
    List.perm_insertionSort _ _
  have hsub : (files.filter
      (fun f => !((records.map (fun r => r.id)).contains f.id))).Sublist files :=
    List.filter_sublist files
  refine ⟨?_, ?_, fun exec db l => migrateLoop_filter exec upto l db, ?_⟩
  · intro f
    rw [List.mem_filter]
    constructor
    · rintro ⟨hmem, hok⟩
      have hmem2 := hperm.mem_iff.mp hmem
      rw [List.mem_filter] at hmem2
      refine ⟨hmem2.1, ?_, (uptoSkip_false_iff upto f).mp hok⟩
      have := hmem2.2
      simpa using this
    · rintro ⟨hmem, hid, hupto⟩
      refine ⟨?_, (uptoSkip_false_iff upto f).mpr hupto⟩
      rw [hperm.mem_iff, List.mem_filter]
      exact ⟨hmem, by simpa using hid⟩
  · haveI htot : IsTotal MigrationFile (fun a b => a.id ≤ b.id) :=
      ⟨fun a b => Nat.le_total a.id b.id⟩
    haveI htrans : IsTrans MigrationFile (fun a b => a.id ≤ b.id) :=
      ⟨fun a b c hab hbc => Nat.le_trans hab hbc⟩
    have hsorted : (diff records files).Pairwise (fun a b => a.id ≤ b.id) :=
      List.sorted_insertionSort _ _
    have hnd2 : ((diff records files).map (fun f => f.id)).Nodup := by
      have h1 : ((files.filter
          (fun f => !((records.map (fun r => r.id)).contains f.id))).map
            (fun f => f.id)).Nodup :=
        (hsub.map (fun f => f.id)).nodup hnd
      exact (hperm.map (fun f => f.id)).nodup_iff.mpr h1
    have hne : (diff records files).Pairwise (fun a b => a.id ≠ b.id) :=
      (List.pairwise_map.mp hnd2)
    have hlt : (diff records files).Pairwise (fun a b => a.id < b.id) :=
      (hsorted.and hne).imp (fun h => Nat.lt_of_le_of_ne h.1 h.2)
    exact hlt.filter _
  · intro hrec hupto
    subst hrec; subst hupto
    have h1 : files.filter
        (fun f => !((([] : List MigrationRecord).map (fun r => r.id)).contains f.id)) =
        files :=
      List.filter_eq_self.mpr (fun a _ => rfl)
    have h2 : (diff [] files).filter (fun g => !(uptoSkip none g)) = diff [] files :=
      List.filter_eq_self.mpr (fun a _ => rfl)
    rw [h2]
    have h3 : (files.filter
        (fun f => !((([] : List MigrationRecord).map
          (fun r => r.id)).contains f.id))).Perm files := by
      rw [h1]
    exact hperm.trans h3

theorem pending_diff_characterization_witness :
    (([fileUsers, fileNoTx].map (fun f => f.id)).Nodup) ∧
    pendingCharacterization [⟨0, "init", 0⟩] [fileUsers, fileNoTx] none :=
  ⟨by decide, pending_diff_characterization [⟨0, "init", 0⟩] [fileUsers, fileNoTx] none (by decide)⟩

/-- C1: a migration file without the directive is applied inside a
transaction that first claims (id, slug) in the ledger and then executes
the content, committing only if both succeeded; a failing claim or a
failing execution leaves the committed ledger unchanged, so no ledger row
exists for that ID afterward when it did not before, and the Migrate loop
returns that error without attempting any later pending migration. -/
theorem apply_transactional_semantics (exec : ExecOracle) (db : DB) (f : MigrationFile)
    (rest : List MigrationFile) (upto : Option MigrationID)
    (hskip : skipTx f.content = false) (hupto : uptoSkip upto f = false) :
    applyTransactional exec db f rest upto := by
  refine ⟨?_, ?_, ?_⟩
  · intro hdup
    have hdup2 : f.id ∈ db.ledger.map (fun r => r.id) := by simpa using hdup
    have happ : applyFile exec db f = (db, some claimErrMsg) := by
      simp [applyFile, hskip, claimResult, hdup2]
    refine ⟨happ, ?_⟩
    rw [migrateLoop_cons, if_neg (by simp [hupto]), happ]
  · intro e ledger2 hfresh hexec
    have hfresh2 : f.id ∉ db.ledger.map (fun r => r.id) := by simpa using hfresh
    have happ : applyFile exec db f = (db, some e) := by
      simp [applyFile, hskip, claimResult, hfresh2, hexec]
    refine ⟨happ, ?_, ?_⟩
    · rw [migrateLoop_cons, if_neg (by simp [hupto]), happ]
    · rw [happ]
      simpa using hfresh
  · intro ledger2 hfresh hexec
    have hfresh2 : f.id ∉ db.ledger.map (fun r => r.id) := by simpa using hfresh
    have happ : applyFile exec db f = (⟨ledger2⟩, none) := by
      simp [applyFile, hskip, claimResult, hfresh2, hexec]
    refine ⟨happ, ?_⟩
    rw [migrateLoop_cons, if_neg (by simp [hupto]), happ]

theorem apply_transactional_semantics_witness :
    (skipTx fileUsers.content = false ∧ uptoSkip none fileUsers = false ∧
      (dbEmpty.ledger.map (fun r => r.id)).contains fileUsers.id = false) ∧
    applyFile execBoom dbEmpty fileUsers = (dbEmpty, some boomMsg) ∧
    migrateLoop execBoom none dbEmpty [fileUsers] = (dbEmpty, some boomMsg) := by
  have h := apply_transactional_semantics execBoom dbEmpty fileUsers [] none (by decide) rfl
  have h2 := h.2.1 boomMsg [⟨5, "add_users", 0⟩] rfl rfl
  exact ⟨⟨by decide, rfl, by decide⟩, h2.1, h2.2.1⟩

theorem collapseAux_no_newline : ∀ (cs : List Char) (b : Bool), '\n' ∉ collapseAux b cs := by
  intro cs
  induction cs with
  | nil => intro b; simp [collapseAux]
  | cons c cs ih =>
    intro b
    rw [collapseAux_cons]
    by_cases hc : isSep c = true
    · rw [if_pos hc]
      cases b with
      | true => rw [if_pos rfl]; exact ih true
      | false =>
        rw [if_neg (by simp)]
        intro hmem
        rcases List.mem_cons.mp hmem with h | h
        · cases h
        · exact ih true h
    · have hc2 : isSep c = false := by simpa using hc
      rw [if_neg (by simp [hc2])]
      intro hmem
      rcases List.mem_cons.mp hmem with h | h
      · rw [← h] at hc2
        exact absurd hc2 (by decide)
      · exact ih false h

theorem slugify_no_newline (s : String) : '\n' ∉ (slugify s).data :=
  collapseAux_no_newline s.data false

theorem NewFile_cases (entries : List (String × String)) (id : MigrationID) (slug : String)
    (render : MigrationID → String → String) :
    (∀ e, available entries = .error e → NewFile entries id slug render = (entries, .error e)) ∧
    (∀ files g, available entries = .ok files →
      files.find? (fun h => h.id == id) = some g →
      NewFile entries id slug render = (entries, .error (.duplicateNewID id g.name))) ∧
    (∀ files, available entries = .ok files →
      files.find? (fun h => h.id == id) = none →
      NewFile entries id slug render =
        (writeTrunc entries (filename (idWidth files) id (slugify slug))
          (render id (slugify slug)),
         .ok (filename (idWidth files) id (slugify slug)))) := by
  refine ⟨?_, ?_, ?_⟩
  · intro e hav
    simp [NewFile, hav]
  · intro files g hav hfind
    simp [NewFile, hav, hfind]
  · intro files hav hfind
    simp [NewFile, hav, hfind]

/-- C6 counterexample: the open used by NewFile is a create-and-truncate,
not the exclusive create of safeWriteFile: at a path that already exists
it succeeds and replaces the content where an exclusive create fails. -/
theorem newfile_write_not_exclusive_counterexample :
    writeTrunc overwriteEntries pathA newContent = [(pathA, newContent)] ∧
    safeWriteFile overwriteEntries pathA newContent = none := by
  decide

/-- C6 amended: NewFile fails with the duplicate-ID error and writes nothing
whenever the chosen ID equals the ID of an existing parsed file, and every
failure leaves the directory untouched; the write itself opens with
create-and-truncate rather than exclusive-create, yet no existing file is
ever overwritten, because a successful run writes to a path that no
existing entry occupies: any entry at the computed path would have parsed
to the chosen ID and triggered the duplicate-ID failure first. -/
theorem newfile_no_overwrite (entries : List (String × String)) (id : MigrationID)
    (slug : String) (render : MigrationID → String → String) :
    newFileSafe entries id slug render := by
  obtain ⟨hcerr, hcdup, hcok⟩ := NewFile_cases entries id slug render
  refine ⟨?_, ?_, ?_⟩
  · intro files f hav hf hid
    cases hfind : files.find? (fun h => h.id == id) with
    | none =>
      have hnone := List.find?_eq_none.mp hfind f hf
      simp [hid] at hnone
    | some g =>
      have hgmem := List.mem_of_find?_eq_some hfind
      have hgid : g.id = id := by simpa using List.find?_some hfind
      have heq := hcdup files g hav hfind
      rw [heq]
      exact ⟨rfl, g, hgmem, hgid, rfl⟩
  · intro e herr
    cases hav : available entries with
    | error e2 => rw [hcerr e2 hav]
    | ok files =>
      cases hfind : files.find? (fun h => h.id == id) with
      | some g => rw [hcdup files g hav hfind]
      | none =>
        rw [hcok files hav hfind] at herr
        cases herr
  · intro path hok
    cases hav : available entries with
    | error e2 =>
      rw [hcerr e2 hav] at hok
      cases hok
    | ok files =>
      cases hfind : files.find? (fun h => h.id == id) with
      | some g =>
        rw [hcdup files g hav hfind] at hok
        cases hok
      | none =>
        have heq := hcok files hav hfind
        rw [heq] at hok
        injection hok with hpath
        subst hpath
        have hfresh : ∀ en ∈ entries, en.1 ≠ filename (idWidth files) id (slugify slug) := by
          intro en hen hname
          have hparse : parseChars (filename (idWidth files) id (slugify slug)).data =
              some (zeroPad (idWidth files) id, (slugify slug).data) :=
            parseChars_filename (idWidth files) id (slugify slug) (slugify_no_newline slug)
          have hmemaf : mkFile en.1 en.2 (zeroPad (idWidth files) id, (slugify slug).data) ∈
              availableFiles entries := by
            refine List.mem_filterMap.mpr ⟨en, hen, ?_⟩
            rw [hname, hparse]
            rfl
          have hfiles := (available_ok_spec entries files hav).1
          rw [← hfiles] at hmemaf
          have hid2 : (mkFile en.1 en.2
              (zeroPad (idWidth files) id, (slugify slug).data)).id = id := by
            show natOfDigitsChars (zeroPad (idWidth files) id) = id
            exact natOfDigitsChars_zeroPad (idWidth files) id
          have hnone := List.find?_eq_none.mp hfind _ hmemaf
          simp [hid2] at hnone
        have hany : entries.any
            (fun e => e.1 == filename (idWidth files) id (slugify slug)) = false := by
          rw [List.any_eq_false]
          intro en hen
          simpa using hfresh en hen
        refine ⟨hfresh, ?_⟩
        rw [heq]
        show writeTrunc entries _ _ = _
        rw [writeTrunc, if_neg (by simp [hany])]

theorem newfile_no_overwrite_witness :
    ((NewFile [] 7 slugRaw renderStub).2 = .ok (filename 0 7 (slugify slugRaw))) ∧
    ((∀ en ∈ ([] : List (String × String)), en.1 ≠ filename 0 7 (slugify slugRaw)) ∧
      (NewFile [] 7 slugRaw renderStub).1 =
        [] ++ [(filename 0 7 (slugify slugRaw), renderStub 7 (slugify slugRaw))]) :=
  ⟨rfl, (newfile_no_overwrite [] 7 slugRaw renderStub).2.2 (filename 0 7 (slugify slugRaw)) rfl⟩

theorem parseChars_some_no_newline (cs : List Char) (p : List Char × List Char)
    (h : parseChars cs = some p) : '\n' ∉ p.2 := by
  rw [parseChars] at h
  split at h
  · cases h
  · split at h
    · split at h
      · dsimp only at h
        split at h
        · cases h
        · injection h with h
          subst h
          next hcon => simpa using hcon
      · cases h
    · cases h

theorem availableFiles_mem_spec (entries : List (String × String)) (f : MigrationFile)
    (hf : f ∈ availableFiles entries) :
    ∃ e ∈ entries, ∃ p, parseChars e.1.data = some p ∧ f = mkFile e.1 e.2 p := by
  obtain ⟨e, he, hsome⟩ := List.mem_filterMap.mp hf
  obtain ⟨p, hp, hmk⟩ := Option.map_eq_some'.mp hsome
  exact ⟨e, he, p, hp, hmk.symm⟩

theorem proposedRenames_mem_spec (files : List MigrationFile) (r : String × String)
    (hr : r ∈ proposedRenames files) :
    ∃ f ∈ files, f.idRaw.length ≠ idWidth files ∧
      r = (f.name, filename (idWidth files) f.id f.slug) := by
  obtain ⟨f, hf, hsome⟩ := List.mem_filterMap.mp hr
  by_cases hc : f.idRaw.length ≠ idWidth files
  · rw [if_pos hc] at hsome
    injection hsome with h
    exact ⟨f, hf, hc, h.symm⟩
  · rw [if_neg hc] at hsome
    cases hsome

theorem find?_unique {α : Type} (p : α → Bool) :
    ∀ (l : List α) (a : α), a ∈ l → p a = true →
      (∀ b ∈ l, p b = true → b = a) → l.find? p = some a := by
  intro l
  induction l with
  | nil => intro a ha _ _; cases ha
  | cons c l ih =>
    intro a ha hpa huniq
    cases hpc : p c with
    | true =>
      rw [List.find?_cons_of_pos _ hpc]
      rw [huniq c (List.mem_cons_self c l) hpc]
    | false =>
      rw [List.find?_cons_of_neg _ (by simp [hpc])]
      have ha2 : a ∈ l := by
        rcases List.mem_cons.mp ha with h | h
        · subst h; rw [hpa] at hpc; cases hpc
        · exact h
      exact ih a ha2 hpa (fun b hb hpb => huniq b (List.mem_cons_of_mem c hb) hpb)

theorem availableFiles_name_inj (entries : List (String × String))
    (hnd : ((availableFiles entries).map (fun f => f.id)).Nodup)
    (f g : MigrationFile) (hf : f ∈ availableFiles entries) (hg : g ∈ availableFiles entries)
    (hname : f.name = g.name) : f = g := by
  obtain ⟨e1, he1, p1, hp1, hf1⟩ := availableFiles_mem_spec entries f hf
  obtain ⟨e2, he2, p2, hp2, hg1⟩ := availableFiles_mem_spec entries g hg
  have hn1 : f.name = e1.1 := by rw [hf1]; rfl
  have hn2 : g.name = e2.1 := by rw [hg1]; rfl
  have hee : e1.1 = e2.1 := by rw [← hn1, ← hn2, hname]
  have hpe : p1 = p2 := by
    rw [hee] at hp1
    rw [hp2] at hp1
    injection hp1 with h
    exact h.symm
  have hid : f.id = g.id := by rw [hf1, hg1, hpe]; rfl
  exact List.inj_on_of_nodup_map hnd hf hg hid

theorem idWidth_eq_of_map_id (files1 files2 : List MigrationFile)
    (h : files1.map (fun f => f.id) = files2.map (fun f => f.id)) :
    idWidth files1 = idWidth files2 := by
  have h1 : ∀ l : List MigrationFile, idWidth l =
      (l.map (fun f => f.id)).foldl
        (fun w i => if widthOfID i > w then widthOfID i else w) 0 := by
    intro l
    rw [idWidth, List.foldl_map]
  rw [h1, h1, h]

theorem renumberedFiles_map_id (files : List MigrationFile) :
    (renumberedFiles files).map (fun f => f.id) = files.map (fun f => f.id) := by
  rw [renumberedFiles, List.map_map]
  apply List.map_congr_left
  intro f _
  by_cases hc : f.idRaw.length ≠ idWidth files
  · simp [Function.comp, if_pos hc, renameFileTo]
  · simp [Function.comp, if_neg hc]

theorem Renumber_cases (entries : List (String × String)) (write : Bool) :
    (∀ e, available entries = .error e → Renumber entries write = .error e) ∧
    (∀ files, available entries = .ok files → proposedRenames files = [] →
      Renumber entries write = .ok ([], entries)) ∧
    (∀ files, available entries = .ok files → proposedRenames files ≠ [] → write = true →
      Renumber entries write = .ok (proposedRenames files,
        entries.map (fun e => (applyRename (proposedRenames files) e.1, e.2)))) ∧
    (∀ files, available entries = .ok files → proposedRenames files ≠ [] → write = false →
      Renumber entries write = .ok (proposedRenames files, entries)) := by
  refine ⟨?_, ?_, ?_, ?_⟩
  · intro e hav
    simp [Renumber, hav]
  · intro files hav hpr
    simp [Renumber, hav, hpr]
  · intro files hav hpr hw
    subst hw
    simp [Renumber, hav, hpr]
  · intro files hav hpr hw
    subst hw
    simp [Renumber, hav, hpr]

theorem stringMk_data (s : String) : String.mk s.data = s := rfl

theorem rename_parse_pointwise (entries : List (String × String))
    (hnd : ((availableFiles entries).map (fun f => f.id)).Nodup)
    (e : String × String) (he : e ∈ entries) :
    ((parseChars (applyRename (proposedRenames (availableFiles entries)) e.1).data).map
      (mkFile (applyRename (proposedRenames (availableFiles entries)) e.1) e.2)) =
    ((parseChars e.1.data).map (mkFile e.1 e.2)).map
      (fun f => if f.idRaw.length ≠ idWidth (availableFiles entries) then
        renameFileTo (idWidth (availableFiles entries)) f else f) := by
  cases hp : parseChars e.1.data with
  | none =>
    have hfind : (proposedRenames (availableFiles entries)).find?
        (fun r => r.1 == e.1) = none := by
      rw [List.find?_eq_none]
      intro r hr
      obtain ⟨f1, hf1, hc1, hre⟩ := proposedRenames_mem_spec _ r hr
      obtain ⟨e1, he1, p1, hp1, hfe⟩ := availableFiles_mem_spec entries f1 hf1
      simp only [hre, beq_iff_eq]
      intro heq
      have hn : f1.name = e1.1 := by rw [hfe]; rfl
      rw [hn] at heq
      rw [heq] at hp1
      rw [hp] at hp1
      cases hp1
    have hnor : applyRename (proposedRenames (availableFiles entries)) e.1 = e.1 := by
      simp [applyRename, hfind]
    rw [hnor, hp]
    rfl
  | some p =>
    have hf0 : mkFile e.1 e.2 p ∈ availableFiles entries :=
      List.mem_filterMap.mpr ⟨e, he, by rw [hp]; rfl⟩
    have hnl : '\n' ∉ p.2 := parseChars_some_no_newline e.1.data p hp
    by_cases hc : p.1.length ≠ idWidth (availableFiles entries)
    · have hcraw : (mkFile e.1 e.2 p).idRaw.length ≠ idWidth (availableFiles entries) := hc
      have hmemr : ((mkFile e.1 e.2 p).name,
          filename (idWidth (availableFiles entries)) (mkFile e.1 e.2 p).id
            (mkFile e.1 e.2 p).slug) ∈ proposedRenames (availableFiles entries) := by
        refine List.mem_filterMap.mpr ⟨mkFile e.1 e.2 p, hf0, ?_⟩
        rw [if_pos hcraw]
      have hfind : (proposedRenames (availableFiles entries)).find? (fun r => r.1 == e.1) =
          some ((mkFile e.1 e.2 p).name,
            filename (idWidth (availableFiles entries)) (mkFile e.1 e.2 p).id
              (mkFile e.1 e.2 p).slug) := by
        apply find?_unique _ _ _ hmemr
        · simp [mkFile]
        · intro b hb hpb
          obtain ⟨f1, hf1, hc1, hre⟩ := proposedRenames_mem_spec _ b hb
          have hbname : f1.name = e.1 := by
            rw [hre] at hpb
            simpa using hpb
          have hf10 : f1 = mkFile e.1 e.2 p :=
            availableFiles_name_inj entries hnd f1 (mkFile e.1 e.2 p) hf1 hf0 hbname
          rw [hre, hf10]
      have happly : applyRename (proposedRenames (availableFiles entries)) e.1 =
          filename (idWidth (availableFiles entries)) (mkFile e.1 e.2 p).id
            (mkFile e.1 e.2 p).slug := by
        simp [applyRename, hfind]
      rw [happly]
      rw [parseChars_filename (idWidth (availableFiles entries)) (mkFile e.1 e.2 p).id
        (mkFile e.1 e.2 p).slug hnl]
      simp only [Option.map_some']
      rw [if_pos hcraw]
      congr 1
      simp [mkFile, renameFileTo, natOfDigitsChars_zeroPad, stringMk_data]
    · have hcraw : ¬ (mkFile e.1 e.2 p).idRaw.length ≠ idWidth (availableFiles entries) := hc
      have hfind : (proposedRenames (availableFiles entries)).find?
          (fun r => r.1 == e.1) = none := by
        rw [List.find?_eq_none]
        intro r hr
        obtain ⟨f1, hf1, hc1, hre⟩ := proposedRenames_mem_spec _ r hr
        simp only [hre, beq_iff_eq]
        intro heq
        have hf10 : f1 = mkFile e.1 e.2 p :=
          availableFiles_name_inj entries hnd f1 (mkFile e.1 e.2 p) hf1 hf0 heq
        rw [hf10] at hc1
        exact hcraw hc1
      have hnor : applyRename (proposedRenames (availableFiles entries)) e.1 = e.1 := by
        simp [applyRename, hfind]
      rw [hnor, hp]
      simp only [Option.map_some']
      rw [if_neg hcraw]

/-- C8: renumbering is idempotent: for every directory whose parsed files
have unique IDs, after one writing run of Renumber completes, the renamed
directory parses cleanly, no file's raw digit width differs from the
freshly computed width, so a second run proposes zero renames, reports
nothing to do, and performs zero filesystem operations. -/
theorem renumber_idempotent (entries : List (String × String))
    (files : List MigrationFile) (renames entries1 : List (String × String))
    (hav : available entries = .ok files)
    (hrun : Renumber entries true = .ok (renames, entries1)) :
    renumberIdempotent entries1 := by
  obtain ⟨hfiles, hnd⟩ := available_ok_spec entries files hav
  subst hfiles
  by_cases hpr : proposedRenames (availableFiles entries) = []
  · have heq := (Renumber_cases entries true).2.1 _ hav hpr
    rw [heq] at hrun
    injection hrun with hrun
    injection hrun with ha hb
    subst hb
    refine ⟨availableFiles entries, hav, ?_, hpr, heq⟩
    intro f hf
    have hnone := List.filterMap_eq_nil_iff.mp hpr f hf
    by_cases hc : f.idRaw.length ≠ idWidth (availableFiles entries)
    · rw [if_pos hc] at hnone
      cases hnone
    · exact not_ne_iff.mp hc
  · have heq := (Renumber_cases entries true).2.2.1 _ hav hpr rfl
    rw [heq] at hrun
    injection hrun with hrun
    injection hrun with ha hb
    subst hb
    have hAF : availableFiles (entries.map
        (fun e => (applyRename (proposedRenames (availableFiles entries)) e.1, e.2))) =
        renumberedFiles (availableFiles entries) := by
      show (entries.map
          (fun e => (applyRename (proposedRenames (availableFiles entries)) e.1, e.2))).filterMap
            (fun e => (parseChars e.1.data).map (mkFile e.1 e.2)) =
        ((entries.filterMap (fun e => (parseChars e.1.data).map (mkFile e.1 e.2))).map
          (fun f => if f.idRaw.length ≠ idWidth (availableFiles entries) then
            renameFileTo (idWidth (availableFiles entries)) f else f))
      rw [List.filterMap_map, List.map_filterMap]
      apply List.filterMap_congr
      intro e he
      exact rename_parse_pointwise entries hnd e he
    have hnd1 : ((renumberedFiles (availableFiles entries)).map (fun f => f.id)).Nodup := by
      rw [renumberedFiles_map_id]
      exact hnd
    have hfd1 : findDuplicate [] (renumberedFiles (availableFiles entries)) = none := by
      apply (findDuplicate_eq_none_iff _ []).mpr
      exact ⟨by simp, hnd1⟩
    have hav1 : available (entries.map
        (fun e => (applyRename (proposedRenames (availableFiles entries)) e.1, e.2))) =
        .ok (renumberedFiles (availableFiles entries)) := by
      simp [available, hfd1, hAF]
    have hwidtheq : idWidth (renumberedFiles (availableFiles entries)) =
        idWidth (availableFiles entries) :=
      idWidth_eq_of_map_id _ _ (renumberedFiles_map_id _)
    have hspec := idWidth_foldl_spec _ rfl (availableFiles entries) 0
    have hlen : ∀ f1 ∈ renumberedFiles (availableFiles entries),
        f1.idRaw.length = idWidth (renumberedFiles (availableFiles entries)) := by
      intro f1 hf1
      rw [hwidtheq]
      obtain ⟨f, hf, hfeq⟩ := List.mem_map.mp hf1
      by_cases hc : f.idRaw.length ≠ idWidth (availableFiles entries)
      · rw [if_pos hc] at hfeq
        rw [← hfeq]
        show (zeroPad (idWidth (availableFiles entries)) f.id).length = _
        rw [zeroPad_length]
        have hle : widthOfID f.id ≤ idWidth (availableFiles entries) := hspec.2.1 f hf
        rw [widthOfID] at hle
        omega
      · rw [if_neg hc] at hfeq
        rw [← hfeq]
        exact not_ne_iff.mp hc
    have hpr1 : proposedRenames (renumberedFiles (availableFiles entries)) = [] := by
      apply List.filterMap_eq_nil_iff.mpr
      intro f1 hf1
      rw [if_neg (not_ne_iff.mpr (hlen f1 hf1))]
    have hrun2 := (Renumber_cases (entries.map
        (fun e => (applyRename (proposedRenames (availableFiles entries)) e.1, e.2)))
        true).2.1 _ hav1 hpr1
    exact ⟨renumberedFiles (availableFiles entries), hav1, hlen, hpr1, hrun2⟩

theorem renumber_idempotent_witness :
    (available renumEntries = .ok renumFiles ∧
      Renumber renumEntries true = .ok (renumRenames, renumEntries1)) ∧
    renumberIdempotent renumEntries1 :=
  ⟨⟨rfl, rfl⟩,
    renumber_idempotent renumEntries renumFiles renumRenames renumEntries1 rfl rfl⟩

end Drift
